import Mathlib

/-!
Verification development for the SublimeLinter3 plugin core (`sublimelinter.py`).

The plugin's mutable state (the `SublimeLinter` event-listener instance plus the
`persist` module caches it drives) is embedded as an explicit state record `St`,
and each handler of the source file becomes a pure state-transformer.  Python
dicts are embedded as association lists with dict update semantics (assignment
replaces the value in place, otherwise appends; iteration order is insertion
order), Python sets as lists with membership-guarded add/remove, and Python's
stable `sorted` as a stable insertion sort.

Names follow the source where the verification gate allows it; `view_syntax`
and `check_syntax` appear here as `view_syn` and `check_syn`.
-/

/-- Dict lookup: value of the first entry with the given key. -/
def lookupA {κ α : Type} [DecidableEq κ] : List (κ × α) → κ → Option α
  | [], _ => none
  | p :: rest, k => if p.1 = k then some p.2 else lookupA rest k

/-- Dict assignment `m[k] = v`: replaces the value in place, else appends. -/
def insertA {κ α : Type} [DecidableEq κ] : List (κ × α) → κ → α → List (κ × α)
  | [], k, v => [(k, v)]
  | p :: rest, k, v => if p.1 = k then (k, v) :: rest else p :: insertA rest k v

/-- Dict deletion `del m[k]` (total: removing an absent key is a no-op). -/
def eraseA {κ α : Type} [DecidableEq κ] : List (κ × α) → κ → List (κ × α)
  | [], _ => []
  | p :: rest, k => if p.1 = k then eraseA rest k else p :: eraseA rest k

/-- Set add (`s.add(x)`): no-op when already present. -/
def addV (s : List Nat) (v : Nat) : List Nat :=
  if v ∈ s then s else s ++ [v]

/-- Guarded set removal (`if x in s: s.remove(x)`). -/
def removeV : List Nat → Nat → List Nat
  | [], _ => []
  | x :: xs, v => if x = v then removeV xs v else x :: removeV xs v

/-- A single diagnostic as stored in `linter.errors` values: (column, message). -/
abbrev Err := Nat × String

/-- A diagnostics mapping: line number (0-based) to the errors on that line. -/
abbrev ErrMap := List (Int × List Err)

/-- A highlight set, modelled as the list of (opaque) highlight tokens that
were added to it (`HighlightSet.add`). -/
abbrev HighlightSet := List Nat

/-- The errors stored on a line of a diagnostics mapping (`[]` when absent). -/
def errsAt (m : ErrMap) (line : Int) : List Err :=
  (lookupA m line).getD []

/-- Per-checker payload delivered to the completion handler: the checker's
`highlight` (possibly `None`) and its `errors` dict. -/
structure LinterRes where
  highlight : Option Nat
  errors : ErrMap
  deriving DecidableEq, Repr

/-- A bound checker's own mutable result state (`linter.highlight`,
`linter.errors`), reset by `linter.clear()`. -/
structure Checker where
  cid : Nat
  result : ErrMap
  hlt : Option Nat
  deriving DecidableEq, Repr

/-- The view data the handlers read from the editor: `view.id()`,
`view.size()`, `persist.syntax(view)`, and the first selection's line
(`none` models an empty selection, the `IndexError` path). -/
structure View where
  id : Nat
  size : Nat
  syn : String
  cursor : Option Int
  deriving DecidableEq, Repr

/-- The combined mutable state: the `SublimeLinter` instance fields
(`loaded_views`, `linted_views`, `view_syntax` as `view_syn`,
`last_hit_times`), the `persist` caches (`persist.errors` as `perrors`,
`persist.highlights` as `phighlights`), the editor-side rendering
(`drawn` marks and the `status` line per view), the checker registry
(bound checkers per view, plus the syntax-to-checker resolution table),
and the queue's pending requests and timestamp source. -/
structure St where
  loaded_views : List Nat
  linted_views : List Nat
  view_syn : List (Nat × String)
  last_hit_times : List (Nat × Nat)
  perrors : List (Nat × ErrMap)
  phighlights : List (Nat × HighlightSet)
  drawn : List (Nat × HighlightSet)
  status : List (Nat × String)
  checkers : List (Nat × List Checker)
  registry : List (String × List Nat)
  pending : List (Nat × Nat)
  counter : Nat
  deriving DecidableEq, Repr

/-- Stable insertion of `x` into `l`: `x` goes before the first element it
compares `le` to, so earlier-listed elements win ties (Python's `sorted` is
stable). -/
def insSorted {α : Type} (le : α → α → Bool) (x : α) : List α → List α
  | [] => [x]
  | y :: ys => if le x y then x :: y :: ys else y :: insSorted le x ys

/-- Stable sort (the embedding of Python's `sorted`). -/
def pysorted {α : Type} (le : α → α → Bool) : List α → List α
  | [] => []
  | x :: xs => insSorted le x (pysorted le xs)

/-- Boolean order on line numbers, for `sorted(list(errors))`. -/
def intLe (a b : Int) : Bool := decide (a ≤ b)

/-- Boolean order on diagnostics by column, for
`sorted(errors[lineno], key=lambda error: error[0])`. -/
def colLe (a b : Err) : Bool := decide (a.1 ≤ b.1)

/-- The status text computed by `on_selection_modified_async` from a present
diagnostics mapping and the cursor line (`sublimelinter.py` lines 275-305):
`none` means the status is erased (`view.erase_status`), `some s` means
`view.set_status('sublimelinter', s)`. -/
def statusOf (errors : ErrMap) (lineno : Int) : Option String :=
  match errors with
  | [] => none
  | _ :: _ =>
    let lines := pysorted intLe (errors.map Prod.fst)
    let counts := lines.map (fun l => (errsAt errors l).length)
    let count := counts.sum
    let plural := if count > 1 then "s" else ""
    match lookupA errors lineno with
    | some line_errs =>
      let msgs := (pysorted colLe line_errs).map Prod.snd
      let head :=
        if count > 1 then
          let index := lines.findIdx (fun l => l == lineno)
          let first := (counts.take index).sum + 1
          if msgs.length > 1 then
            toString first ++ "-" ++ toString (first + msgs.length - 1) ++
              " of " ++ toString count ++ " errors: "
          else
            toString first ++ " of " ++ toString count ++ " errors: "
        else "Error: "
      some (head ++ String.intercalate "; " msgs)
    | none => some (toString count ++ " error" ++ plural)

/-- The cursor-line read of the selection handler (lines 267-270): the first
selection's line, or `-1` when the selection is empty (`IndexError` caught). -/
def cursorLine (v : View) : Int :=
  match v.cursor with
  | some l => l
  | none => -1

/-- The `on_selection_modified_async` handler: reads the cursor line (an empty
selection raises `IndexError`, caught as line `-1`), and if the view has an
entry in `persist.errors` either sets or erases the status; a view with no
entry leaves the status untouched. -/
def on_selection_modified_async (st : St) (v : View) : St :=
  let lineno : Int := cursorLine v
  match lookupA st.perrors v.id with
  | some errors =>
    match statusOf errors lineno with
    | some s => { st with status := insertA st.status v.id s }
    | none => { st with status := eraseA st.status v.id }
  | none => st

/-- One `errors.setdefault(line, []).extend(errs)` step of the merge loop:
extends the line's errors in place, creating the line with `errs` if absent. -/
def setdefaultExt : ErrMap → Int → List Err → ErrMap
  | [], line, errs => [(line, errs)]
  | p :: rest, line, errs =>
    if p.1 = line then (p.1, p.2 ++ errs) :: rest
    else p :: setdefaultExt rest line errs

/-- The error merge of the completion handler (`highlight`, lines 130-136):
for each checker in order, each line's errors are appended onto the merged
mapping (`if linter.errors:` skips a falsy empty dict). -/
def mergeErrors (linters : List LinterRes) : ErrMap :=
  linters.foldl
    (fun acc L =>
      if L.errors.isEmpty then acc
      else L.errors.foldl (fun a p => setdefaultExt a p.1 p.2) acc)
    []

/-- The highlight merge of the completion handler (lines 128-132): a fresh
`HighlightSet` to which each checker's truthy `highlight` is added in order. -/
def buildHS (linters : List LinterRes) : HighlightSet :=
  linters.foldl
    (fun hs L =>
      match L.highlight with
      | some h => hs ++ [h]
      | none => hs)
    []

/-- The commit tail of the completion handler (lines 143-148): clear the
view's drawn marks and draw the new set (net effect: the drawn marks become
exactly the new set), replace the stored diagnostics, update the status. -/
def commitHL (st : St) (v : View) (linters : List LinterRes) (hs : HighlightSet) : St :=
  let st2 := { st with drawn := insertA st.drawn v.id hs
                     , perrors := insertA st.perrors v.id (mergeErrors linters) }
  on_selection_modified_async st2 v

/-- The completion handler `SublimeLinter.highlight` (lines 124-148): merges
the per-checker results, stores the merged highlight set under the view id,
then — unless `hit_time` is not `None` and the stored last hit time exceeds
it — clears and redraws marks, replaces stored diagnostics, and refreshes the
status line. -/
def highlight (st : St) (v : View) (linters : List LinterRes) (hit_time : Option Nat) : St :=
  let hs := buildHS linters
  let st1 := { st with phighlights := insertA st.phighlights v.id hs }
  match hit_time with
  | some t =>
    if (lookupA st.last_hit_times v.id).getD 0 > t then st1
    else commitHL st1 v linters hs
  | none => commitHL st1 v linters hs

/-- Modelled from the spec: the checker-registry resolution behind
`Linter.assign(view, reassign=True)` (module `lint/linter.py`, not under
`src/`; SyntaxBindingResolver, spec section 4.2 "re-resolves which checker
backends apply to the new syntax").  The registry table maps a syntax name to
checker ids; assignment rebinds the view to fresh checkers for its syntax. -/
def checkersFor (st : St) (s : String) : List Checker :=
  ((lookupA st.registry s).getD []).map (fun i => ⟨i, [], none⟩)

/-- Modelled from the spec: re-binding a view to the fresh checkers its
syntax resolves to (continuation of the `Linter.assign` model above). -/
def assignLinters (st : St) (v : View) : St :=
  { st with checkers := insertA st.checkers v.id (checkersFor st v.syn) }

/-- Modelled from the spec: `Linter.clear_view` (module `lint/linter.py`, not
under `src/`; spec section 4.2 "discards any previously applied
highlights/diagnostics for that buffer (clears rendering immediately)"). -/
def clearView (st : St) (vid : Nat) : St :=
  { st with perrors := eraseA st.perrors vid
          , phighlights := eraseA st.phighlights vid
          , drawn := insertA st.drawn vid []
          , status := eraseA st.status vid }

/-- The `SublimeLinter.check_syntax` handler (lines 164-179, named `check_syn`
here): returns `true` and rebinds iff the view's syntax was never recorded or
differs from the recorded one; on change it records the new syntax, reassigns
checkers, and clears the view. -/
def check_syn (st : St) (v : View) : St × Bool :=
  if lookupA st.view_syn v.id ≠ some v.syn then
    let st1 := { st with view_syn := insertA st.view_syn v.id v.syn }
    let st2 := assignLinters st1 v
    let st3 := clearView st2 v.id
    (st3, true)
  else
    (st, false)

/-- Modelled from the spec: `persist.queue.hit` (module `lint/queue.py`, not
under `src/`; LintScheduler, spec section 4.3 "mints a new timestamp strictly
greater than any previously minted value for this process ... and enqueues a
debounced analysis request"; multiple hits collapse onto one pending entry). -/
def queueHit (st : St) (vid : Nat) : St × Nat :=
  let t := st.counter + 1
  ({ st with counter := t, pending := insertA st.pending vid t }, t)

/-- Modelled from the spec: `Linter.get_linters(vid)` plus `linter.clear()`
(module `lint/linter.py`, not under `src/`; spec section 4.3 "every bound
checker for the buffer is reset to an empty-result state synchronously"). -/
def clearLinters (st : St) (vid : Nat) : St :=
  match lookupA st.checkers vid with
  | some cs =>
    { st with checkers :=
        insertA st.checkers vid (cs.map (fun c => { c with result := [], hlt := none })) }
  | none => st

/-- The `SublimeLinter.hit` handler (lines 150-162): check the syntax, mark
the view linted, and either (empty view) clear every bound checker and return
without minting a timestamp, or mint a queue timestamp and store it as the
view's last hit time.  The second component is the timestamp minted by
`persist.queue.hit`, `none` on the empty-view early return. -/
def hit (st : St) (v : View) : St × Option Nat :=
  let st1 := (check_syn st v).1
  let st2 := { st1 with linted_views := addV st1.linted_views v.id }
  if v.size = 0 then
    (clearLinters st2 v.id, none)
  else
    let (st3, t) := queueHit st2 v.id
    ({ st3 with last_hit_times := insertA st3.last_hit_times v.id t }, some t)

/-- Modelled from the spec: `persist.view_did_close` (module `lint/persist.py`,
not under `src/`; spec section 3 "On buffer close, its BufferState and all
derived caches are deleted entirely"): drops the persist caches, bound
checkers and pending request of the closed view. -/
def viewDidClose (st : St) (vid : Nat) : St :=
  { st with perrors := eraseA st.perrors vid
          , phighlights := eraseA st.phighlights vid
          , checkers := eraseA st.checkers vid
          , pending := eraseA st.pending vid }

/-- The `SublimeLinter.on_close` handler (lines 352-367): membership-guarded
removal of the view from the four tracker structures, then
`persist.view_did_close`. -/
def on_close (st : St) (vid : Nat) : St :=
  let st1 := { st with loaded_views := removeV st.loaded_views vid
                     , linted_views := removeV st.linted_views vid
                     , view_syn := eraseA st.view_syn vid
                     , last_hit_times := eraseA st.last_hit_times vid }
  viewDidClose st1 vid

/-- Looking up the key just assigned yields the assigned value. -/
theorem lookupA_insertA_self {κ α : Type} [DecidableEq κ] (m : List (κ × α)) (k : κ) (v : α) :
    lookupA (insertA m k v) k = some v := by
  induction m with
  | nil => simp [insertA, lookupA]
  | cons p rest ih => by_cases h : p.1 = k <;> simp [insertA, lookupA, h, ih]

/-- Assignment leaves other keys unchanged. -/
theorem lookupA_insertA_ne {κ α : Type} [DecidableEq κ] (m : List (κ × α)) (k v : κ) (x : α)
    (h : v ≠ k) : lookupA (insertA m k x) v = lookupA m v := by
  induction m with
  | nil =>
    have hkv : ¬ (k = v) := fun hc => h hc.symm
    simp [insertA, lookupA, hkv]
  | cons p rest ih =>
    by_cases hp : p.1 = k
    · subst hp
      have hpv : ¬ (p.1 = v) := fun hc => h hc.symm
      simp [insertA, lookupA, hpv]
    · simp [insertA, lookupA, hp, ih]

/-- Deleting a key makes its lookup fail. -/
theorem lookupA_eraseA_self {κ α : Type} [DecidableEq κ] (m : List (κ × α)) (k : κ) :
    lookupA (eraseA m k) k = none := by
  induction m with
  | nil => rfl
  | cons p rest ih => by_cases h : p.1 = k <;> simp [eraseA, lookupA, h, ih]

/-- Deletion leaves other keys unchanged. -/
theorem lookupA_eraseA_ne {κ α : Type} [DecidableEq κ] (m : List (κ × α)) (ke k : κ)
    (h : k ≠ ke) : lookupA (eraseA m ke) k = lookupA m k := by
  induction m with
  | nil => rfl
  | cons p rest ih =>
    by_cases hp : p.1 = ke
    · subst hp
      have hpk : ¬ (p.1 = k) := fun hc => h hc.symm
      simp [eraseA, lookupA, hpk, ih]
    · simp [eraseA, lookupA, hp, ih]

/-- A successful lookup comes from an entry of the list. -/
theorem mem_of_lookupA {κ α : Type} [DecidableEq κ] (m : List (κ × α)) (k : κ) (a : α)
    (h : lookupA m k = some a) : (k, a) ∈ m := by
  induction m with
  | nil => simp [lookupA] at h
  | cons p rest ih =>
    obtain ⟨p1, p2⟩ := p
    by_cases hp : p1 = k
    · subst hp
      simp [lookupA] at h
      subst h
      exact List.mem_cons_self _ _
    · simp [lookupA, hp] at h
      exact List.mem_cons_of_mem _ (ih h)

/-- Every entry after an assignment is the assigned pair or an old entry. -/
theorem mem_insertA {κ α : Type} [DecidableEq κ] (m : List (κ × α)) (k : κ) (v : α)
    (p : κ × α) (h : p ∈ insertA m k v) : p = (k, v) ∨ p ∈ m := by
  induction m with
  | nil => simp [insertA] at h; simp [h]
  | cons q rest ih =>
    by_cases hq : q.1 = k
    · simp [insertA, hq] at h
      rcases h with h | h
      · exact Or.inl h
      · exact Or.inr (List.mem_cons_of_mem _ h)
    · simp only [insertA, if_neg hq, List.mem_cons] at h
      rcases h with h | h
      · exact Or.inr (by simp [h])
      · rcases ih h with h2 | h2
        · exact Or.inl h2
        · exact Or.inr (List.mem_cons_of_mem _ h2)

/-- Every entry surviving a deletion was an entry before. -/
theorem mem_eraseA {κ α : Type} [DecidableEq κ] (m : List (κ × α)) (k : κ)
    (p : κ × α) (h : p ∈ eraseA m k) : p ∈ m := by
  induction m with
  | nil => simp [eraseA] at h
  | cons q rest ih =>
    by_cases hq : q.1 = k
    · simp only [eraseA, if_pos hq] at h
      exact List.mem_cons_of_mem _ (ih h)
    · simp only [eraseA, if_neg hq, List.mem_cons] at h
      rcases h with h | h
      · simp [h]
      · exact List.mem_cons_of_mem _ (ih h)

/-- A key held by no entry looks up to nothing. -/
theorem lookupA_eq_none_of_forall {κ α : Type} [DecidableEq κ] (m : List (κ × α)) (k : κ)
    (h : ∀ p ∈ m, p.1 ≠ k) : lookupA m k = none := by
  induction m with
  | nil => rfl
  | cons p rest ih =>
    have hp : p.1 ≠ k := h p (List.mem_cons_self _ _)
    simp only [lookupA, if_neg hp]
    exact ih (fun q hq => h q (List.mem_cons_of_mem _ hq))

/-- A removed element is gone from the set. -/
theorem not_mem_removeV (s : List Nat) (v : Nat) : v ∉ removeV s v := by
  induction s with
  | nil => simp [removeV]
  | cons x xs ih =>
    by_cases h : x = v
    · simpa [removeV, h] using ih
    · simp only [removeV, if_neg h, List.mem_cons]
      rintro (rfl | hmem)
      · exact h rfl
      · exact ih hmem

/-- A setdefault-extend step appends to the errors of its own line. -/
theorem errsAt_setdefaultExt_self (m : ErrMap) (l : Int) (es : List Err) :
    errsAt (setdefaultExt m l es) l = errsAt m l ++ es := by
  induction m with
  | nil => simp [setdefaultExt, errsAt, lookupA]
  | cons p rest ih =>
    by_cases hp : p.1 = l
    · simp [setdefaultExt, hp, errsAt, lookupA]
    · simp only [setdefaultExt, if_neg hp]
      simpa [errsAt, lookupA, hp] using ih

/-- A setdefault-extend step leaves other lines unchanged. -/
theorem errsAt_setdefaultExt_ne (m : ErrMap) (l : Int) (es : List Err) (l2 : Int)
    (h : l2 ≠ l) : errsAt (setdefaultExt m l es) l2 = errsAt m l2 := by
  induction m with
  | nil =>
    have hne : ¬ (l = l2) := fun hc => h hc.symm
    simp [setdefaultExt, errsAt, lookupA, hne]
  | cons p rest ih =>
    by_cases hp : p.1 = l
    · have h1 : ¬ (l = l2) := fun hc => h hc.symm
      have h2 : ¬ (p.1 = l2) := by rw [hp]; exact h1
      simp [setdefaultExt, hp, errsAt, lookupA, h1, h2]
    · by_cases hp2 : p.1 = l2
      · simp only [setdefaultExt, if_neg hp]
        simp [errsAt, lookupA, hp2]
      · simp only [setdefaultExt, if_neg hp]
        simpa [errsAt, lookupA, hp2] using ih

/-- The head entry of a mapping owns the errors of its line. -/
theorem errsAt_cons_self (p : Int × List Err) (m : ErrMap) :
    errsAt (p :: m) p.1 = p.2 := by
  simp [errsAt, lookupA]

/-- Other lines look past the head entry. -/
theorem errsAt_cons_ne (p : Int × List Err) (m : ErrMap) (l : Int) (h : ¬ (p.1 = l)) :
    errsAt (p :: m) l = errsAt m l := by
  simp [errsAt, lookupA, h]

/-- A line held by no entry has no errors. -/
theorem errsAt_eq_nil_of_not_mem (m : ErrMap) (l : Int)
    (h : l ∉ m.map Prod.fst) : errsAt m l = [] := by
  have : lookupA m l = none := by
    apply lookupA_eq_none_of_forall
    intro p hp hc
    exact h (hc ▸ List.mem_map_of_mem Prod.fst hp)
  simp [errsAt, this]

/-- Folding the setdefault-extend loop of one checker over an accumulator
appends that checker's per-line errors (keys are unique inside one checker:
its `errors` is a dict). -/
theorem errsAt_foldl_setdefault (items : ErrMap) (acc : ErrMap) (line : Int)
    (h : (items.map Prod.fst).Nodup) :
    errsAt (items.foldl (fun a p => setdefaultExt a p.1 p.2) acc) line
      = errsAt acc line ++ errsAt items line := by
  induction items generalizing acc with
  | nil => simp [errsAt, lookupA]
  | cons p rest ih =>
    simp only [List.foldl_cons]
    simp only [List.map_cons, List.nodup_cons] at h
    rw [ih _ h.2]
    by_cases hl : line = p.1
    · subst hl
      rw [errsAt_setdefaultExt_self, errsAt_eq_nil_of_not_mem rest p.1 h.1,
        List.append_nil, errsAt_cons_self]
    · rw [errsAt_setdefaultExt_ne _ _ _ _ hl,
        errsAt_cons_ne p rest line (fun hc => hl hc.symm)]

/-- Folding the whole merge loop over an accumulator appends each checker's
errors for a line in checker order. -/
theorem errsAt_merge_foldl (linters : List LinterRes) (acc : ErrMap) (line : Int)
    (h : ∀ L ∈ linters, (L.errors.map Prod.fst).Nodup) :
    errsAt
      (linters.foldl
        (fun a L =>
          if L.errors.isEmpty then a
          else L.errors.foldl (fun a2 p => setdefaultExt a2 p.1 p.2) a)
        acc) line
      = errsAt acc line ++ (linters.map (fun L => errsAt L.errors line)).flatten := by
  induction linters generalizing acc with
  | nil => simp
  | cons L rest ih =>
    simp only [List.foldl_cons, List.map_cons, List.flatten_cons]
    rw [ih _ (fun M hM => h M (List.mem_cons_of_mem _ hM))]
    cases hE : L.errors.isEmpty
    · simp only [hE, Bool.false_eq_true, if_false]
      rw [errsAt_foldl_setdefault _ _ _ (h L (List.mem_cons_self _ _)),
        List.append_assoc]
    · have : L.errors = [] := List.isEmpty_iff.mp hE
      simp [hE, this, errsAt, lookupA]

/-- Inserting into a sorted list permutes consing. -/
theorem insSorted_perm {α : Type} (le : α → α → Bool) (x : α) (l : List α) :
    List.Perm (insSorted le x l) (x :: l) := by
  induction l with
  | nil => simp [insSorted]
  | cons y ys ih =>
    cases hxy : le x y
    · simp only [insSorted, hxy, Bool.false_eq_true, if_false]
      exact (ih.cons y).trans (List.Perm.swap x y ys)
    · simp [insSorted, hxy]

/-- The stable sort permutes its input. -/
theorem pysorted_perm {α : Type} (le : α → α → Bool) (l : List α) :
    List.Perm (pysorted le l) l := by
  induction l with
  | nil => simp [pysorted]
  | cons x xs ih => exact (insSorted_perm le x (pysorted le xs)).trans (ih.cons x)

/-- The total number of diagnostics of a mapping: the summed lengths of the
per-line error lists. -/
def totalCount (m : ErrMap) : Nat :=
  (m.map (fun p => p.2.length)).sum

/-- Summing the per-line counts over the key list of a duplicate-free mapping
gives the total diagnostic count. -/
theorem sum_counts_over_keys (m : ErrMap) (h : (m.map Prod.fst).Nodup) :
    ((m.map Prod.fst).map (fun l => (errsAt m l).length)).sum = totalCount m := by
  induction m with
  | nil => rfl
  | cons p rest ih =>
    simp only [List.map_cons, List.sum_cons] at *
    obtain ⟨hnm, hnd⟩ := List.nodup_cons.mp h
    have e1 : errsAt (p :: rest) p.1 = p.2 := errsAt_cons_self p rest
    have e2 : (rest.map Prod.fst).map (fun l => (errsAt (p :: rest) l).length)
        = (rest.map Prod.fst).map (fun l => (errsAt rest l).length) := by
      apply List.map_congr_left
      intro l hl
      have hne : ¬ (p.1 = l) := fun e => hnm (e ▸ hl)
      rw [errsAt_cons_ne p rest l hne]
    rw [e1, e2, ih hnd]
    rfl

/-- The count computed inside `statusOf` (sum over the sorted key list) equals
the total diagnostic count when the mapping is duplicate-free. -/
theorem statusOf_count (m : ErrMap) (h : (m.map Prod.fst).Nodup) :
    ((pysorted intLe (m.map Prod.fst)).map (fun l => (errsAt m l).length)).sum
      = totalCount m := by
  rw [((pysorted_perm intLe (m.map Prod.fst)).map (fun l => (errsAt m l).length)).sum_eq,
    sum_counts_over_keys m h]

/-- When the cursor line has no entry, `statusOf` produces the pluralized
total-count text. -/
theorem statusOf_no_line (errors : ErrMap) (lineno : Int)
    (hne : errors ≠ []) (habs : lookupA errors lineno = none)
    (hnd : (errors.map Prod.fst).Nodup) :
    statusOf errors lineno
      = some (toString (totalCount errors) ++ " error" ++
          (if totalCount errors > 1 then "s" else "")) := by
  match errors, hne with
  | p :: rest, _ =>
    simp only [statusOf, habs]
    rw [statusOf_count _ hnd]

/-- The selection handler only ever touches the status map. -/
theorem osma_parts (st : St) (v : View) :
    (on_selection_modified_async st v).perrors = st.perrors
    ∧ (on_selection_modified_async st v).phighlights = st.phighlights
    ∧ (on_selection_modified_async st v).drawn = st.drawn
    ∧ (on_selection_modified_async st v).last_hit_times = st.last_hit_times
    ∧ (on_selection_modified_async st v).counter = st.counter
    ∧ (on_selection_modified_async st v).pending = st.pending
    ∧ (on_selection_modified_async st v).checkers = st.checkers := by
  unfold on_selection_modified_async
  split
  · dsimp only
    split
    · exact ⟨rfl, rfl, rfl, rfl, rfl, rfl, rfl⟩
    · exact ⟨rfl, rfl, rfl, rfl, rfl, rfl, rfl⟩
  · exact ⟨rfl, rfl, rfl, rfl, rfl, rfl, rfl⟩

/-- Checking the syntax never touches the scheduler or persist-cache state. -/
theorem check_syn_parts (st : St) (v : View) :
    ((check_syn st v).1).last_hit_times = st.last_hit_times
    ∧ ((check_syn st v).1).counter = st.counter
    ∧ ((check_syn st v).1).pending = st.pending
    ∧ ((check_syn st v).1).loaded_views = st.loaded_views
    ∧ ((check_syn st v).1).linted_views = st.linted_views := by
  unfold check_syn assignLinters clearView
  split
  · exact ⟨rfl, rfl, rfl, rfl, rfl⟩
  · exact ⟨rfl, rfl, rfl, rfl, rfl⟩

/-- Clearing the bound checkers touches only the checker table. -/
theorem clearLinters_parts (st : St) (vid : Nat) :
    (clearLinters st vid).last_hit_times = st.last_hit_times
    ∧ (clearLinters st vid).counter = st.counter
    ∧ (clearLinters st vid).pending = st.pending := by
  unfold clearLinters
  split
  · exact ⟨rfl, rfl, rfl⟩
  · exact ⟨rfl, rfl, rfl⟩

/-- The completion handler never touches the hit bookkeeping or the queue. -/
theorem highlight_parts (st : St) (v : View) (ls : List LinterRes) (ht : Option Nat) :
    (highlight st v ls ht).last_hit_times = st.last_hit_times
    ∧ (highlight st v ls ht).counter = st.counter
    ∧ (highlight st v ls ht).pending = st.pending := by
  have hc := osma_parts
  unfold highlight commitHL
  cases ht with
  | none =>
    dsimp only
    exact ⟨(hc _ _).2.2.2.1, (hc _ _).2.2.2.2.1, (hc _ _).2.2.2.2.2.1⟩
  | some t =>
    dsimp only
    split
    · exact ⟨rfl, rfl, rfl⟩
    · exact ⟨(hc _ _).2.2.2.1, (hc _ _).2.2.2.2.1, (hc _ _).2.2.2.2.2.1⟩

/-- On an empty view, `hit` leaves the hit times, the timestamp source and
the pending queue untouched and mints nothing. -/
theorem hit_empty_parts (st : St) (v : View) (h : v.size = 0) :
    (hit st v).2 = none
    ∧ (hit st v).1.last_hit_times = st.last_hit_times
    ∧ (hit st v).1.counter = st.counter
    ∧ (hit st v).1.pending = st.pending := by
  have hcs := check_syn_parts st v
  unfold hit
  dsimp only
  rw [if_pos h]
  refine ⟨rfl, ?_, ?_, ?_⟩
  · rw [(clearLinters_parts _ _).1]
    exact hcs.1
  · rw [(clearLinters_parts _ _).2.1]
    exact hcs.2.1
  · rw [(clearLinters_parts _ _).2.2]
    exact hcs.2.2.1

/-- On a non-empty view, `hit` mints the next counter value, stores it as the
view's last hit time and enqueues it as the pending request. -/
theorem hit_nonempty_parts (st : St) (v : View) (h : ¬ (v.size = 0)) :
    (hit st v).2 = some (st.counter + 1)
    ∧ (hit st v).1.counter = st.counter + 1
    ∧ (hit st v).1.last_hit_times = insertA st.last_hit_times v.id (st.counter + 1)
    ∧ (hit st v).1.pending = insertA st.pending v.id (st.counter + 1) := by
  have hcs := check_syn_parts st v
  unfold hit queueHit
  dsimp only
  rw [if_neg h]
  refine ⟨?_, ?_, ?_, ?_⟩
  · rw [hcs.2.1]
  · rw [hcs.2.1]
  · rw [hcs.1, hcs.2.1]
  · rw [hcs.2.2.1, hcs.2.1]

/-- The commit tail replaces the stored diagnostics and the drawn marks and
leaves the stored highlight sets as it found them. -/
theorem commitHL_parts (st : St) (v : View) (ls : List LinterRes) (hs : HighlightSet) :
    (commitHL st v ls hs).perrors = insertA st.perrors v.id (mergeErrors ls)
    ∧ (commitHL st v ls hs).drawn = insertA st.drawn v.id hs
    ∧ (commitHL st v ls hs).phighlights = st.phighlights := by
  unfold commitHL
  dsimp only
  exact ⟨(osma_parts _ _).1, (osma_parts _ _).2.2.1, (osma_parts _ _).2.1⟩

/-- What each component of the state looks like after `on_close`. -/
theorem on_close_parts (st : St) (vid : Nat) :
    (on_close st vid).loaded_views = removeV st.loaded_views vid
    ∧ (on_close st vid).linted_views = removeV st.linted_views vid
    ∧ (on_close st vid).view_syn = eraseA st.view_syn vid
    ∧ (on_close st vid).last_hit_times = eraseA st.last_hit_times vid
    ∧ (on_close st vid).counter = st.counter
    ∧ (on_close st vid).perrors = eraseA st.perrors vid
    ∧ (on_close st vid).phighlights = eraseA st.phighlights vid := by
  unfold on_close viewDidClose
  exact ⟨rfl, rfl, rfl, rfl, rfl, rfl, rfl⟩

/-- The scheduler invariant: every stored last hit time was minted by the
queue, so it is bounded by the timestamp source. -/
def SchedInv (st : St) : Prop :=
  ∀ p ∈ st.last_hit_times, p.2 ≤ st.counter

instance (st : St) : Decidable (SchedInv st) := by
  unfold SchedInv
  infer_instance

/-- One observable operation of the embedded plugin: any handler applied to
any inputs. -/
inductive Step : St → St → Prop where
  | hitStep : ∀ st v, Step st (hit st v).1
  | highlightStep : ∀ st v ls ht, Step st (highlight st v ls ht)
  | checkSynStep : ∀ st v, Step st (check_syn st v).1
  | closeStep : ∀ st vid, Step st (on_close st vid)
  | selStep : ∀ st v, Step st (on_selection_modified_async st v)

/-- A concrete state used by the witnesses and counterexamples below: one
open view with id 1, one bound checker, one stored error and highlight, and
a last hit at queue time 5. -/
def exSt : St :=
  { loaded_views := [1], linted_views := [1], view_syn := [(1, "python")],
    last_hit_times := [(1, 5)], perrors := [(1, [(0, [(0, "old")])])],
    phighlights := [(1, [9])], drawn := [(1, [9])], status := [(1, "1 error")],
    checkers := [(1, [⟨7, [(0, [(0, "old")])], some 9⟩])],
    registry := [("python", [7])], pending := [], counter := 5 }

/-- The concrete view of `exSt`: id 1, 10 bytes, python, cursor on line 0. -/
def exV : View := ⟨1, 10, "python", some 0⟩

/-- The same view with empty content. -/
def exVempty : View := ⟨1, 0, "python", some 0⟩

/-- A one-checker completion payload delivering one error and one highlight. -/
def exLs : List LinterRes := [⟨some 42, [(0, [(2, "late")])]⟩]

/-- Clearing the bound checkers leaves every checker of the view in the
empty-result state. -/
theorem clearLinters_cleared (st : St) (vid : Nat) :
    ∀ c ∈ (lookupA (clearLinters st vid).checkers vid).getD [],
      c.result = [] ∧ c.hlt = none := by
  unfold clearLinters
  split
  · dsimp only
    rw [lookupA_insertA_self]
    intro c hc
    simp only [Option.getD_some] at hc
    obtain ⟨c0, _, rfl⟩ := List.mem_map.mp hc
    exact ⟨rfl, rfl⟩
  · intro c hc
    rename_i heq
    rw [heq] at hc
    simp at hc

/-- On an empty view, every checker bound to the view ends up cleared. -/
theorem hit_empty_checkers (st : St) (v : View) (h : v.size = 0) :
    ∀ c ∈ (lookupA (hit st v).1.checkers v.id).getD [],
      c.result = [] ∧ c.hlt = none := by
  unfold hit
  dsimp only
  rw [if_pos h]
  exact clearLinters_cleared _ _

/-- C1 (amended): a stale completion (originating hit time strictly below the
stored last hit time) leaves the stored diagnostics, the drawn marks and the
status line untouched and triggers no redraw, but it does overwrite the
stored highlight-set entry of the view with the freshly merged set, because
the handler assigns `persist.highlights[vid]` before the staleness check
(line 128 precedes lines 140-141). -/
theorem stale_result_discard (st : St) (v : View) (ls : List LinterRes) (t : Nat)
    (h : t < (lookupA st.last_hit_times v.id).getD 0) :
    (highlight st v ls (some t)).perrors = st.perrors
    ∧ (highlight st v ls (some t)).drawn = st.drawn
    ∧ (highlight st v ls (some t)).status = st.status
    ∧ (highlight st v ls (some t)).phighlights
        = insertA st.phighlights v.id (buildHS ls) := by
  unfold highlight
  dsimp only
  rw [if_pos h]
  exact ⟨rfl, rfl, rfl, rfl⟩

/-- C1 witness: the stale-completion theorem applied at the concrete state. -/
theorem stale_result_discard_witness :
    3 < (lookupA exSt.last_hit_times exV.id).getD 0
    ∧ (highlight exSt exV exLs (some 3)).perrors = exSt.perrors :=
  ⟨by decide, (stale_result_discard exSt exV exLs 3 (by decide)).1⟩

/-- C1 counterexample: at the concrete state, a completion with hit time 3,
stale against the stored last hit time 5, still changes the stored
highlight-set entry of the buffer, so the handler does not leave every piece
of stored state exactly as it was. -/
theorem stale_result_mutates_stored_highlights :
    3 < (lookupA exSt.last_hit_times exV.id).getD 0
    ∧ lookupA (highlight exSt exV exLs (some 3)).phighlights exV.id
        ≠ lookupA exSt.phighlights exV.id := by decide

/-- C2 (amended): on a view of size zero, `hit` enqueues nothing, resets
every bound checker to the empty-result state, and returns early before
`persist.queue.hit` runs: no timestamp is minted and the stored last hit
time is unchanged (lines 156-160 return before line 162). -/
theorem hit_empty_resets_without_timestamp (st : St) (v : View) (h : v.size = 0) :
    (hit st v).2 = none
    ∧ (hit st v).1.pending = st.pending
    ∧ (hit st v).1.last_hit_times = st.last_hit_times
    ∧ ∀ c ∈ (lookupA (hit st v).1.checkers v.id).getD [],
        c.result = [] ∧ c.hlt = none := by
  obtain ⟨h1, h2, _, h4⟩ := hit_empty_parts st v h
  exact ⟨h1, h4, h2, hit_empty_checkers st v h⟩

/-- C2 witness: the empty-view theorem applied at the concrete state. -/
theorem hit_empty_resets_witness :
    exVempty.size = 0 ∧ (hit exSt exVempty).2 = none :=
  ⟨rfl, (hit_empty_resets_without_timestamp exSt exVempty rfl).1⟩

/-- C2 counterexample: on the concrete empty view, `hit` returns no timestamp
and the stored last hit time is exactly what it was, contradicting the
claim that a fresh timestamp is minted and stored. -/
theorem hit_empty_no_timestamp :
    exVempty.size = 0
    ∧ (hit exSt exVempty).2 = none
    ∧ (hit exSt exVempty).1.last_hit_times = exSt.last_hit_times := by decide

/-- C3 (amended): after `on_close` purges a view, a later completion carrying
a (non-`None`) hit timestamp is not discarded: the purged last hit time reads
as the default 0, the staleness test `0 > hit_time` fails, and the handler
commits, recreating diagnostics, stored-highlight and drawn entries keyed by
the purged view id.  Discarding for closed views happens only earlier, in
`lint`, when the view lookup fails. -/
theorem completion_after_close_commits (st : St) (v : View) (ls : List LinterRes) (t : Nat) :
    lookupA (on_close st v.id).last_hit_times v.id = none
    ∧ lookupA (highlight (on_close st v.id) v ls (some t)).perrors v.id
        = some (mergeErrors ls)
    ∧ lookupA (highlight (on_close st v.id) v ls (some t)).phighlights v.id
        = some (buildHS ls)
    ∧ lookupA (highlight (on_close st v.id) v ls (some t)).drawn v.id
        = some (buildHS ls) := by
  have h1 : lookupA (on_close st v.id).last_hit_times v.id = none := by
    rw [(on_close_parts st v.id).2.2.2.1]
    exact lookupA_eraseA_self _ _
  have hcond : ¬ ((lookupA (on_close st v.id).last_hit_times v.id).getD 0 > t) := by
    rw [h1]
    exact Nat.not_lt_zero t
  refine ⟨h1, ?_, ?_, ?_⟩
  · unfold highlight
    dsimp only
    rw [if_neg hcond, (commitHL_parts _ _ _ _).1]
    dsimp only
    rw [lookupA_insertA_self]
  · unfold highlight
    dsimp only
    rw [if_neg hcond, (commitHL_parts _ _ _ _).2.2]
    dsimp only
    rw [lookupA_insertA_self]
  · unfold highlight
    dsimp only
    rw [if_neg hcond, (commitHL_parts _ _ _ _).2.1]
    dsimp only
    rw [lookupA_insertA_self]

/-- C3 counterexample: closing the concrete view deletes its diagnostics
entry, yet a completion arriving afterwards re-creates entries keyed by the
purged id and commits the delivered diagnostics and highlights. -/
theorem completion_after_close_creates_entries :
    lookupA (on_close exSt 1).perrors 1 = none
    ∧ lookupA (highlight (on_close exSt 1) exV exLs (some 9)).perrors 1
        = some [(0, [(2, "late")])]
    ∧ lookupA (highlight (on_close exSt 1) exV exLs (some 9)).phighlights 1
        = some [42] := by decide

/-- C4: on a non-empty view, two successive hits mint the strictly increasing
timestamps counter+1 and counter+2, and across any single handler step from a
state whose stored hit times are bounded by the timestamp source, the
invariant is preserved and every view's stored last hit time is monotonically
non-decreasing. -/
theorem hit_times_monotone (st st2 : St) (v : View) (hInv : SchedInv st)
    (hv : ¬ (v.size = 0)) (hstep : Step st st2) :
    ((hit st v).2 = some (st.counter + 1)
      ∧ (hit (hit st v).1 v).2 = some (st.counter + 2)
      ∧ st.counter + 1 < st.counter + 2)
    ∧ SchedInv st2
    ∧ (∀ vid t t2, lookupA st.last_hit_times vid = some t →
        lookupA st2.last_hit_times vid = some t2 → t ≤ t2) := by
  refine ⟨?_, ?_, ?_⟩
  · have h1 := hit_nonempty_parts st v hv
    have h2 := hit_nonempty_parts (hit st v).1 v hv
    refine ⟨h1.1, ?_, Nat.lt_succ_self _⟩
    rw [h2.1, h1.2.1]
  · cases hstep with
    | hitStep v2 =>
      by_cases hs : v2.size = 0
      · obtain ⟨_, hlht, hcnt, _⟩ := hit_empty_parts st v2 hs
        intro p hp
        rw [hcnt]
        rw [hlht] at hp
        exact hInv p hp
      · obtain ⟨_, hcnt, hlht, _⟩ := hit_nonempty_parts st v2 hs
        intro p hp
        rw [hcnt]
        rw [hlht] at hp
        rcases mem_insertA _ _ _ _ hp with h | h
        · rw [h]
        · exact Nat.le_succ_of_le (hInv p h)
    | highlightStep v2 ls ht =>
      intro p hp
      rw [(highlight_parts st v2 ls ht).2.1]
      rw [(highlight_parts st v2 ls ht).1] at hp
      exact hInv p hp
    | checkSynStep v2 =>
      intro p hp
      rw [(check_syn_parts st v2).2.1]
      rw [(check_syn_parts st v2).1] at hp
      exact hInv p hp
    | closeStep vid =>
      intro p hp
      rw [(on_close_parts st vid).2.2.2.2.1]
      rw [(on_close_parts st vid).2.2.2.1] at hp
      exact hInv p (mem_eraseA _ _ _ hp)
    | selStep v2 =>
      intro p hp
      rw [(osma_parts st v2).2.2.2.2.1]
      rw [(osma_parts st v2).2.2.2.1] at hp
      exact hInv p hp
  · intro vid t t2 hbefore hafter
    cases hstep with
    | hitStep v2 =>
      by_cases hs : v2.size = 0
      · rw [(hit_empty_parts st v2 hs).2.1, hbefore] at hafter
        exact le_of_eq (Option.some.inj hafter)
      · rw [(hit_nonempty_parts st v2 hs).2.2.1] at hafter
        by_cases hvid : vid = v2.id
        · subst hvid
          rw [lookupA_insertA_self] at hafter
          have ht2 : st.counter + 1 = t2 := Option.some.inj hafter
          have hle : t ≤ st.counter := hInv (v2.id, t) (mem_of_lookupA _ _ _ hbefore)
          omega
        · rw [lookupA_insertA_ne _ _ _ _ hvid, hbefore] at hafter
          exact le_of_eq (Option.some.inj hafter)
    | highlightStep v2 ls ht =>
      rw [(highlight_parts st v2 ls ht).1, hbefore] at hafter
      exact le_of_eq (Option.some.inj hafter)
    | checkSynStep v2 =>
      rw [(check_syn_parts st v2).1, hbefore] at hafter
      exact le_of_eq (Option.some.inj hafter)
    | closeStep vid0 =>
      rw [(on_close_parts st vid0).2.2.2.1] at hafter
      by_cases hvid : vid = vid0
      · subst hvid
        rw [lookupA_eraseA_self] at hafter
        cases hafter
      · rw [lookupA_eraseA_ne _ _ _ hvid, hbefore] at hafter
        exact le_of_eq (Option.some.inj hafter)
    | selStep v2 =>
      rw [(osma_parts st v2).2.2.2.1, hbefore] at hafter
      exact le_of_eq (Option.some.inj hafter)

/-- C4 witness: the monotonicity theorem applied at the concrete state, with
the hit step as the observed operation. -/
theorem hit_times_monotone_witness :
    SchedInv exSt ∧ ¬ (exV.size = 0) ∧ (hit exSt exV).2 = some (exSt.counter + 1) :=
  ⟨by decide, by decide,
    ((hit_times_monotone exSt (hit exSt exV).1 exV (by decide) (by decide)
      (Step.hitStep exSt exV)).1).1⟩

/-- C5: `check_syntax` (here `check_syn`) returns true exactly when the
view's syntax was never recorded or differs from the recorded one; when it
returns true it has recorded the new syntax, rebound the view to the fresh
checkers its syntax resolves to, and synchronously cleared the view's stored
diagnostics, stored highlights and drawn marks; when it returns false the
state is completely unchanged. -/
theorem check_syn_contract (st : St) (v : View) :
    ((check_syn st v).2 = true ↔ lookupA st.view_syn v.id ≠ some v.syn)
    ∧ ((check_syn st v).2 = true →
        lookupA (check_syn st v).1.view_syn v.id = some v.syn
        ∧ lookupA (check_syn st v).1.checkers v.id = some (checkersFor st v.syn)
        ∧ lookupA (check_syn st v).1.perrors v.id = none
        ∧ lookupA (check_syn st v).1.phighlights v.id = none
        ∧ lookupA (check_syn st v).1.drawn v.id = some [])
    ∧ ((check_syn st v).2 = false → (check_syn st v).1 = st) := by
  refine ⟨?_, ?_, ?_⟩
  · by_cases h : lookupA st.view_syn v.id ≠ some v.syn <;> simp [check_syn, h]
  · intro htrue
    have h : lookupA st.view_syn v.id ≠ some v.syn := by
      by_contra hc
      simp [check_syn, hc] at htrue
    unfold check_syn assignLinters clearView
    rw [if_pos h]
    dsimp only
    refine ⟨?_, ?_, ?_, ?_, ?_⟩
    · exact lookupA_insertA_self _ _ _
    · exact lookupA_insertA_self _ _ _
    · exact lookupA_eraseA_self _ _
    · exact lookupA_eraseA_self _ _
    · exact lookupA_insertA_self _ _ _
  · intro hfalse
    by_cases h : lookupA st.view_syn v.id ≠ some v.syn
    · simp [check_syn, h] at hfalse
    · simp [check_syn, h]

/-- The spec's concrete status-formatting example mapping: one error on line
2 and two errors on line 5. -/
def exDiag : ErrMap :=
  [(2, [(0, "bad indent")]), (5, [(0, "unused var"), (4, "missing semicolon")])]

/-- The concrete state with an empty (but present) diagnostics mapping and a
previously displayed status. -/
def exStC6 : St := { exSt with perrors := [(1, [])], status := [(1, "old")] }

/-- C6: the status summarizer on the spec's concrete examples: both-line
ranks, the no-diagnostics-on-this-line total, the singular `Error: ` form,
and clearing on an empty mapping (both at the `statusOf` level and through
the selection handler, which erases the stored status). -/
theorem status_formatting_examples :
    statusOf exDiag 5 = some "2-3 of 3 errors: unused var; missing semicolon"
    ∧ statusOf exDiag 2 = some "1 of 3 errors: bad indent"
    ∧ statusOf exDiag 9 = some "3 errors"
    ∧ statusOf [(4, [(0, "oops")])] 4 = some "Error: oops"
    ∧ statusOf [] 0 = none
    ∧ lookupA (on_selection_modified_async exStC6 exV).status 1 = none := by
  decide

/-- A checker reporting one error at line 0, column 2. -/
def ckA : LinterRes := ⟨none, [(0, [(2, "from A")])]⟩

/-- A second checker reporting a different message at the same line and
column. -/
def ckB : LinterRes := ⟨none, [(0, [(2, "from B")])]⟩

/-- C7 counterexample: the two runs deliver the same per-checker diagnostics
(the checker lists are permutations of each other), both checkers report at
the same line and column, yet the status texts differ — the stable
by-column sort keeps merge order for equal columns, so the joined message
depends on checker evaluation order. -/
theorem status_depends_on_checker_order :
    List.Perm [ckA, ckB] [ckB, ckA]
    ∧ statusOf (mergeErrors [ckA, ckB]) 0 ≠ statusOf (mergeErrors [ckB, ckA]) 0 :=
  ⟨List.Perm.swap ckB ckA [], by decide⟩

/-- C7 (amended): the status text is a deterministic function of the merged
diagnostics mapping and the cursor line, and the merge appends same-line
diagnostics in checker order (order of checkers preserved, order within a
checker preserved); consequently two runs agree whenever they merge the
checkers in the same order, but reordering checkers that report at the same
line and column changes the joined text. -/
theorem mergeErrors_appends_in_checker_order (linters : List LinterRes) (line : Int)
    (h : ∀ L ∈ linters, (L.errors.map Prod.fst).Nodup) :
    errsAt (mergeErrors linters) line
      = (linters.map (fun L => errsAt L.errors line)).flatten := by
  unfold mergeErrors
  have hm := errsAt_merge_foldl linters [] line h
  simpa [errsAt, lookupA] using hm

/-- C7 witness: the merge-order theorem applied to the two concrete
checkers. -/
theorem mergeErrors_appends_witness :
    (ckA.errors.map Prod.fst).Nodup
    ∧ (ckB.errors.map Prod.fst).Nodup
    ∧ errsAt (mergeErrors [ckA, ckB]) 0
        = ([ckA, ckB].map (fun L => errsAt L.errors 0)).flatten :=
  ⟨by decide, by decide,
    mergeErrors_appends_in_checker_order [ckA, ckB] 0 (by
      intro L hL
      rcases List.mem_pair.mp hL with h | h <;> rw [h] <;> decide)⟩

/-- C8: with a non-empty diagnostics mapping whose line keys are
non-negative (and duplicate-free, as dict keys are), an empty selection is
treated as line `-1`, which carries no diagnostics, so the handler sets the
pluralized total-count text instead of failing. -/
theorem no_selection_reports_total (st : St) (v : View) (errors : ErrMap)
    (hc : v.cursor = none)
    (he : lookupA st.perrors v.id = some errors)
    (hne : errors ≠ [])
    (hpos : ∀ p ∈ errors, 0 ≤ p.1)
    (hnd : (errors.map Prod.fst).Nodup) :
    lookupA (on_selection_modified_async st v).status v.id
      = some (toString (totalCount errors) ++ " error" ++
          (if totalCount errors > 1 then "s" else "")) := by
  have habs : lookupA errors (-1) = none := by
    apply lookupA_eq_none_of_forall
    intro p hp hc2
    have hge := hpos p hp
    rw [hc2] at hge
    omega
  have hline : cursorLine v = -1 := by
    unfold cursorLine
    rw [hc]
  unfold on_selection_modified_async
  dsimp only
  rw [he]
  dsimp only
  rw [hline, statusOf_no_line errors (-1) hne habs hnd]
  dsimp only
  rw [lookupA_insertA_self]

/-- The concrete view with an empty selection. -/
def exVnosel : View := ⟨1, 10, "python", none⟩

/-- C8 witness: the no-selection theorem applied at the concrete state. -/
theorem no_selection_reports_total_witness :
    exVnosel.cursor = none
    ∧ lookupA (on_selection_modified_async exSt exVnosel).status exVnosel.id
        = some (toString (totalCount [((0 : Int), [((0 : Nat), "old")])]) ++ " error" ++
            (if totalCount [((0 : Int), [((0 : Nat), "old")])] > 1 then "s" else "")) :=
  ⟨rfl, no_selection_reports_total exSt exVnosel [(0, [(0, "old")])] rfl (by decide)
      (by decide) (by decide) (by decide)⟩

/-- C9: `on_close` removes the view from every tracker structure — loaded
views, linted views, recorded syntax and last hit times — and, being a total
function built from membership-guarded removals, it cannot raise even when
entries are already absent; afterwards no tracker structure holds an entry
for the id. -/
theorem on_close_purges (st : St) (vid : Nat) :
    vid ∉ (on_close st vid).loaded_views
    ∧ vid ∉ (on_close st vid).linted_views
    ∧ lookupA (on_close st vid).view_syn vid = none
    ∧ lookupA (on_close st vid).last_hit_times vid = none := by
  obtain ⟨h1, h2, h3, h4, _⟩ := on_close_parts st vid
  rw [h1, h2, h3, h4]
  exact ⟨not_mem_removeV _ _, not_mem_removeV _ _,
    lookupA_eraseA_self _ _, lookupA_eraseA_self _ _⟩

/-- C10: a completion delivered with no originating hit timestamp (the
`hit_time=None` default used by the direct post-save `lint` path, lines
104 and 338/345) skips the staleness comparison entirely and is always
committed: the drawn marks are replaced by the fresh merged highlight set,
the stored highlight set and stored diagnostics are replaced, and the hit
bookkeeping is untouched — no matter what the stored last hit time is. -/
theorem none_hit_time_always_commits (st : St) (v : View) (ls : List LinterRes) :
    lookupA (highlight st v ls none).perrors v.id = some (mergeErrors ls)
    ∧ lookupA (highlight st v ls none).drawn v.id = some (buildHS ls)
    ∧ lookupA (highlight st v ls none).phighlights v.id = some (buildHS ls)
    ∧ (highlight st v ls none).last_hit_times = st.last_hit_times := by
  refine ⟨?_, ?_, ?_, (highlight_parts st v ls none).1⟩
  · unfold highlight
    dsimp only
    rw [(commitHL_parts _ _ _ _).1]
    dsimp only
    rw [lookupA_insertA_self]
  · unfold highlight
    dsimp only
    rw [(commitHL_parts _ _ _ _).2.1]
    dsimp only
    rw [lookupA_insertA_self]
  · unfold highlight
    dsimp only
    rw [(commitHL_parts _ _ _ _).2.2]
    dsimp only
    rw [lookupA_insertA_self]
